import Mathlib

/-!
Shallow embedding of the Cypher query compiler in
`infra/impl/graph/neo4j/neo4j.go` (package `neo4j`) of me2seeks/forge,
together with the data model of `infra/contract/graph/query.go`.

Go maps (`graph.Properties`, the parameter map `map[string]any`) are
modelled as association lists `List (String × Val)`; a Go map assignment
`m[k] = v` is `mapInsert` (replace in place when the key is present,
append otherwise), and a Go `range` loop over a map corresponds to a
left fold over one iteration-order view of the map — two views of the
same map value are permutations of one another.
-/

/-- The dynamic values (`any` in Go) that appear as property values,
condition values and query parameters. -/
inductive Val where
  | str (s : String)
  | int (n : Int)
  | bool (b : Bool)
deriving DecidableEq, Repr

/-- The parameter map of one compile call (`map[string]any` in Go),
as an association list in insertion order. -/
abbrev Params := List (String × Val)

/-- Key-membership test `_, exists := m[k]` of a Go map. -/
def hasKey (m : Params) (k : String) : Bool :=
  m.any (fun kv => kv.1 == k)

/-- Go map assignment `m[k] = v`: overwrite in place when present,
append otherwise. -/
def mapInsert (m : Params) (k : String) (v : Val) : Params :=
  if hasKey m k then
    m.map (fun kv => if kv.1 == k then (k, v) else kv)
  else
    m ++ [(k, v)]

/-- Translation of `strings.Join parts sep`. -/
def sjoin (parts : List String) (sep : String) : String :=
  match parts with
  | [] => ""
  | x :: xs => xs.foldl (fun acc y => acc ++ sep ++ y) x

mutual
/-- Struct `graph.Pattern` (node part of a match pattern). -/
inductive Pattern where
  | mk (pathAlias : String) (aliasName : String) (labels : List String)
       (properties : List (String × Val)) (edge : Option EdgePattern)

/-- Struct `graph.EdgePattern` (edge part of a match pattern). -/
inductive EdgePattern where
  | mk (aliasName : String) (labels : List String)
       (properties : List (String × Val)) (direction : String)
       (minHops : Option Int) (maxHops : Option Int) (node : Option Pattern)
end

def Pattern.pathAlias : Pattern → String
  | .mk pa _ _ _ _ => pa

def Pattern.aliasName : Pattern → String
  | .mk _ a _ _ _ => a

def Pattern.labels : Pattern → List String
  | .mk _ _ l _ _ => l

def Pattern.properties : Pattern → List (String × Val)
  | .mk _ _ _ p _ => p

def Pattern.edge : Pattern → Option EdgePattern
  | .mk _ _ _ _ e => e

def EdgePattern.aliasName : EdgePattern → String
  | .mk a _ _ _ _ _ _ => a

def EdgePattern.labels : EdgePattern → List String
  | .mk _ l _ _ _ _ _ => l

def EdgePattern.properties : EdgePattern → List (String × Val)
  | .mk _ _ p _ _ _ _ => p

def EdgePattern.direction : EdgePattern → String
  | .mk _ _ _ d _ _ _ => d

def EdgePattern.minHops : EdgePattern → Option Int
  | .mk _ _ _ _ mn _ _ => mn

def EdgePattern.maxHops : EdgePattern → Option Int
  | .mk _ _ _ _ _ mx _ => mx

def EdgePattern.node : EdgePattern → Option Pattern
  | .mk _ _ _ _ _ _ n => n

/-- Constants of `graph.EdgeDirection` (the Go type is a string). -/
def DirectionOutgoing : String := "->"

def DirectionIncoming : String := "<-"

def DirectionBoth : String := "--"

/-- Struct `graph.Condition`. -/
structure Condition where
  aliasName : String
  property : String
  operator : String
  value : Val

/-- Struct `graph.Where`. -/
structure Where where
  filter : List Condition
  must : List Condition
  mustNot : List Condition
  should : List Condition

/-- Struct `graph.Return`. -/
structure ReturnItem where
  expression : String
  aliasName : String

/-- Struct `graph.Order`. -/
structure Order where
  aliasName : String
  property : String
  asc : Bool

/-- Struct `graph.Query`. -/
structure Query where
  matchP : List Pattern
  whereP : Option Where
  ret : List ReturnItem
  orderBy : List Order
  skip : Option Int
  limit : Option Int

/-! ### The compiler, translated from `neo4j.go` -/

/-- Node/edge label rendering: one `` :`label` `` piece per label, in
declaration order (`buildMatchClause`, label loops). -/
def labelText (labels : List String) : String :=
  labels.foldl (fun acc l => acc ++ ":`" ++ l ++ "`") ""

/-- Inline property rendering plus parameter binding
(`buildMatchClause`, property loops): every key binds `alias_key`
directly into the shared map (no collision check). -/
def bindProps (aliasName : String) (props : List (String × Val)) (params : Params) :
    String × Params :=
  if props.length > 0 then
    let pieces := props.map (fun kv => kv.1 ++ ": $" ++ (aliasName ++ "_" ++ kv.1))
    let params2 := props.foldl (fun m kv => mapInsert m (aliasName ++ "_" ++ kv.1) kv.2) params
    (" \x7b" ++ sjoin pieces ", " ++ "\x7d", params2)
  else ("", params)

/-- Direction opening bracket piece (`switch edgePattern.Direction`,
first occurrence): incoming `<-`, both `-`, default (outgoing or any
other value) `-`. -/
def dirOpen (d : String) : String :=
  if d = DirectionIncoming then "<-"
  else if d = DirectionBoth then "-"
  else "-"

/-- Direction closing bracket piece (`switch edgePattern.Direction`,
second occurrence): incoming `-`, both `-`, default `->`. -/
def dirClose (d : String) : String :=
  if d = DirectionIncoming then "-"
  else if d = DirectionBoth then "-"
  else "->"

/-- Variable-length path suffix (`buildMatchClause`, hops block). -/
def hopText (mn mx : Option Int) : String :=
  if mn.isSome || mx.isSome then
    "*" ++
      (match mn, mx with
       | some a, some b => if a = b then toString a else toString a ++ ".." ++ toString b
       | some a, none => toString a ++ ".."
       | none, some b => ".." ++ toString b
       | none, none => "")
  else ""

/-- Far-endpoint node rendering (`buildMatchClause`, `edgePattern.Node`
block): alias defaulting to `m` plus labels; its properties and any
deeper edge are not rendered. -/
def farNodeText (p : Pattern) : String :=
  "(" ++ (if p.aliasName = "" then "m" else p.aliasName) ++ labelText p.labels ++ ")"

/-- Edge segment rendering (`buildMatchClause`, `p.Edge` block). -/
def buildEdgeSegment (e : EdgePattern) (params : Params) : String × Params :=
  let edgeAlias := if e.aliasName = "" then "r" else e.aliasName
  let lbl := if e.labels.length > 0 then ":" ++ sjoin e.labels "|" else ""
  let (propText, params2) := bindProps edgeAlias e.properties params
  (dirOpen e.direction ++ "[" ++ edgeAlias ++ lbl ++ hopText e.minHops e.maxHops
     ++ propText ++ "]" ++ dirClose e.direction
     ++ (match e.node with
         | some n => farNodeText n
         | none => ""),
   params2)

/-- Primary-node segment rendering (`buildMatchClause`, node block,
including the `PathAlias` assignment piece). -/
def buildNodeSegment (p : Pattern) (params : Params) : String × Params :=
  let a := if p.aliasName = "" then "n" else p.aliasName
  let (propText, params2) := bindProps a p.properties params
  ((if p.pathAlias ≠ "" then p.pathAlias ++ " = " else "")
     ++ "(" ++ a ++ labelText p.labels ++ propText ++ ")",
   params2)

/-- One full pattern (node plus optional edge continuation). -/
def buildPatternPart (p : Pattern) (params : Params) : String × Params :=
  let (nodeText, params1) := buildNodeSegment p params
  match p.edge with
  | none => (nodeText, params1)
  | some e =>
    let (edgeText, params2) := buildEdgeSegment e params1
    (nodeText ++ edgeText, params2)

/-- Translation of `buildMatchClause` of `neo4j.go`. -/
def buildMatchClause (pats : List Pattern) (params : Params) : String × Params :=
  match pats with
  | [] => ("", params)
  | _ =>
    let (parts, params2) := pats.foldl
      (fun (acc : List String × Params) p =>
        let (t, ps) := buildPatternPart p acc.2
        (acc.1 ++ [t], ps)) ([], params)
    ("MATCH " ++ sjoin parts ", ", params2)

/-- Candidate parameter name tried at counter `k` by `buildCondition`:
the base itself at `k = 0`, then `base_k`. -/
def candidateName (base : String) (k : Nat) : String :=
  if k = 0 then base else base ++ "_" ++ Nat.repr k

/-- The collision loop of `buildCondition`, with enough fuel to cover
`params.length + 1` candidates (the Go loop is unbounded; the fuel is
never exhausted, see `findFreshAux_not_mem`). -/
def findFreshAux (base : String) (params : Params) : Nat → Nat → String
  | 0, k => candidateName base k
  | fuel + 1, k =>
    if hasKey params (candidateName base k) then findFreshAux base params fuel (k + 1)
    else candidateName base k

/-- The unique parameter name chosen by `buildCondition` for a base name. -/
def freshParamName (base : String) (params : Params) : String :=
  findFreshAux base params (params.length + 1) 0

/-- Constants of `graph.Operator` (the Go type is a string). -/
def OpEqual : String := "="

def OpNotEqual : String := "!="

def OpGreaterThan : String := ">"

def OpGreaterThanOrEqual : String := ">="

def OpLessThan : String := "<"

def OpLessThanOrEqual : String := "<="

def OpIn : String := "IN"

def OpContains : String := "CONTAINS"

/-- The operator switch of `buildCondition`, defaulting to equality. -/
def operatorToken (op : String) : String :=
  if op = OpEqual then " = "
  else if op = OpNotEqual then " <> "
  else if op = OpGreaterThan then " > "
  else if op = OpGreaterThanOrEqual then " >= "
  else if op = OpLessThan then " < "
  else if op = OpLessThanOrEqual then " <= "
  else if op = OpIn then " IN "
  else if op = OpContains then " CONTAINS "
  else " = "

/-- Translation of `buildCondition` of `neo4j.go`. -/
def buildCondition (cond : Condition) (params : Params) : String × Params :=
  let paramName := freshParamName (cond.aliasName ++ "_" ++ cond.property) params
  (cond.aliasName ++ "." ++ cond.property ++ operatorToken cond.operator ++ "$" ++ paramName,
   mapInsert params paramName cond.value)

/-- One group's condition loop in `buildWhereClause`. -/
def renderConds (conds : List Condition) (params : Params) : List String × Params :=
  conds.foldl (fun (acc : List String × Params) c =>
    let (t, ps) := buildCondition c acc.2
    (acc.1 ++ [t], ps)) ([], params)

/-- Translation of `buildWhereClause` of `neo4j.go`. -/
def buildWhereClause (w : Option Where) (params : Params) : String × Params :=
  match w with
  | none => ("", params)
  | some w =>
    let (clauses1, params1) :=
      if w.filter.length > 0 then
        let (parts, ps) := renderConds w.filter params
        ([sjoin parts " AND "], ps)
      else ([], params)
    let (clauses2, params2) :=
      if w.must.length > 0 then
        let (parts, ps) := renderConds w.must params1
        (clauses1 ++ ["(" ++ sjoin parts " AND " ++ ")"], ps)
      else (clauses1, params1)
    let (clauses3, params3) :=
      if w.should.length > 0 then
        let (parts, ps) := renderConds w.should params2
        (clauses2 ++ ["(" ++ sjoin parts " OR " ++ ")"], ps)
      else (clauses2, params2)
    let (clauses4, params4) :=
      if w.mustNot.length > 0 then
        let (parts, ps) := renderConds w.mustNot params3
        (clauses3 ++ ["NOT (" ++ sjoin parts " AND " ++ ")"], ps)
      else (clauses3, params3)
    if clauses4.length = 0 then ("", params4)
    else ("WHERE " ++ sjoin clauses4 " AND ", params4)

/-- The alias-collection loop shared by `buildCypherQueryForOperation`,
`UpdateNodesByQuery` and `DeleteNodesByQuery`. -/
def collectAliases (pats : List Pattern) : List String :=
  pats.foldl (fun acc p =>
    let a := if p.aliasName = "" then "n" else p.aliasName
    let acc1 := acc ++ [a]
    match p.edge with
    | none => acc1
    | some e =>
      let ea := if e.aliasName = "" then "r" else e.aliasName
      let acc2 := acc1 ++ [ea]
      match e.node with
      | none => acc2
      | some n => acc2 ++ [if n.aliasName = "" then "m" else n.aliasName]) []

/-- The merge loop `for k, v := range opParams` at the end of
`buildCypherQueryForOperation`; later writers win. -/
def mergeParams (base extra : Params) : Params :=
  extra.foldl (fun m kv => mapInsert m kv.1 kv.2) base

/-- Translation of `buildCypherQueryForOperation` of `neo4j.go`. -/
def buildCypherQueryForOperation (q : Query)
    (opClauseGenerator : List String → String × Params) : String × Params :=
  let params0 : Params := []
  let (matchClause, params1) := buildMatchClause q.matchP params0
  let text1 := if matchClause ≠ "" then matchClause ++ " " else ""
  let (whereClause, params2) := buildWhereClause q.whereP params1
  let text2 := text1 ++ (if whereClause ≠ "" then whereClause ++ " " else "")
  let aliasesInMatch := collectAliases q.matchP
  let (opClause, opParams) := opClauseGenerator aliasesInMatch
  (text2 ++ opClause, mergeParams params2 opParams)

/-- The RETURN operation-clause generator defined inside
`buildCypherQuery`. -/
def returnOpClause (q : Query) (aliasesInMatch : List String) : String × Params :=
  let returnClauses := q.ret.map (fun r =>
    r.expression ++ (if r.aliasName ≠ "" then " AS " ++ r.aliasName else ""))
  let returnClauses := if returnClauses.length = 0 then aliasesInMatch else returnClauses
  let text := "RETURN " ++ sjoin returnClauses ", "
  let text := text ++
    (if q.orderBy.length > 0 then
       " ORDER BY " ++ sjoin (q.orderBy.map (fun o =>
         o.aliasName ++ "." ++ o.property ++ (if o.asc then " ASC" else " DESC"))) ", "
     else "")
  let (text, params1) :=
    match q.skip with
    | some s => (text ++ " SKIP $skip", mapInsert [] "skip" (Val.int s))
    | none => (text, ([] : Params))
  let (text, params2) :=
    match q.limit with
    | some l => (text ++ " LIMIT $limit", mapInsert params1 "limit" (Val.int l))
    | none => (text, params1)
  (text, params2)

/-- Translation of `buildCypherQuery` of `neo4j.go`. -/
def buildCypherQuery (q : Query) : String × Params :=
  buildCypherQueryForOperation q (returnOpClause q)

/-- Translation of `buildSetClause` of `neo4j.go`. -/
def buildSetClause (aliasName : String) (properties : List (String × Val)) :
    String × Params :=
  if properties.length = 0 then ("", [])
  else
    let (setParts, params) := properties.foldl
      (fun (acc : List String × Params) kv =>
        let paramName := aliasName ++ "_set_" ++ kv.1 ++ "_" ++ Nat.repr acc.2.length
        (acc.1 ++ [aliasName ++ "." ++ kv.1 ++ " = $" ++ paramName],
         mapInsert acc.2 paramName kv.2)) ([], [])
    ("SET " ++ sjoin setParts ", ", params)

/-- The SET operation-clause generator of `UpdateNodesByQuery`
(first introduced alias as target; no-op on an empty alias list). -/
def updateNodesSetOp (properties : List (String × Val))
    (aliasesInMatchForOp : List String) : String × Params :=
  match aliasesInMatchForOp with
  | [] => ("", [])
  | targetAlias :: _ => buildSetClause targetAlias properties

/-- The `RETURN count(...)` tail appended by the node-targeted bulk
operations. -/
def countTail (aliases : List String) : String :=
  match aliases with
  | a :: _ => " RETURN count(" ++ a ++ ")"
  | [] => " RETURN count(*)"

/-- The Cypher text and parameters produced by `UpdateNodesByQuery`
before the session executes them. -/
def updateNodesCypher (q : Query) (properties : List (String × Val)) :
    String × Params :=
  let aliasesInMatch := collectAliases q.matchP
  let (cypher, params) := buildCypherQueryForOperation q (updateNodesSetOp properties)
  (cypher ++ countTail aliasesInMatch, params)

/-- The pre-determined edge alias of `UpdateEdgesByQuery` and
`DeleteEdgesByQuery`: the first pattern's explicitly supplied edge
alias, empty otherwise. -/
def firstEdgeAlias (q : Query) : String :=
  match q.matchP with
  | p :: _ =>
    match p.edge with
    | some e => if e.aliasName ≠ "" then e.aliasName else ""
    | none => ""
  | [] => ""

/-- The `RETURN count(...)` tail appended by the edge-targeted bulk
operations. -/
def edgeCountTail (edgeAlias : String) : String :=
  if edgeAlias ≠ "" then " RETURN count(" ++ edgeAlias ++ ")" else " RETURN count(*)"

/-- The Cypher text and parameters produced by `UpdateEdgesByQuery`
before the session executes them. -/
def updateEdgesCypher (q : Query) (properties : List (String × Val)) :
    String × Params :=
  let edgeAlias := firstEdgeAlias q
  let opGen := fun (_ : List String) =>
    if edgeAlias = "" then ("", ([] : Params)) else buildSetClause edgeAlias properties
  let (cypher, params) := buildCypherQueryForOperation q opGen
  (cypher ++ edgeCountTail edgeAlias, params)

/-- The DELETE operation-clause generator of `DeleteNodesByQuery`. -/
def deleteNodesOp (aliasesInMatchForOp : List String) : String × Params :=
  match aliasesInMatchForOp with
  | [] => ("", [])
  | targetAlias :: _ => ("DETACH DELETE " ++ targetAlias, [])

/-- The Cypher text and parameters produced by `DeleteNodesByQuery`
before the session executes them. -/
def deleteNodesCypher (q : Query) : String × Params :=
  let aliasesInMatch := collectAliases q.matchP
  let (cypher, params) := buildCypherQueryForOperation q deleteNodesOp
  (cypher ++ countTail aliasesInMatch, params)

/-- The Cypher text and parameters produced by `DeleteEdgesByQuery`
before the session executes them. -/
def deleteEdgesCypher (q : Query) : String × Params :=
  let edgeAlias := firstEdgeAlias q
  let opGen := fun (_ : List String) =>
    if edgeAlias = "" then ("", ([] : Params)) else ("DELETE " ++ edgeAlias, ([] : Params))
  let (cypher, params) := buildCypherQueryForOperation q opGen
  (cypher ++ edgeCountTail edgeAlias, params)

/-! ### Auxiliary definitions for the freshness argument -/

/-- Decimal value of a digit character (inverse of `Nat.digitChar` below 10). -/
def charDigit (c : Char) : Nat := c.toNat - 48

/-- Decimal reading of a digit string, left to right. -/
def decValue (l : List Char) : Nat := l.foldl (fun acc c => acc * 10 + charDigit c) 0

/-! ### Claim-side (specification) definitions

Each definition below transcribes the wording of one claim, to be
compared with the corresponding definition translated from the source. -/

/-- The fixed total operator table named by the specification. -/
def knownOperatorTokens : List (String × String) :=
  [("=", " = "), ("!=", " <> "), (">", " > "), (">=", " >= "),
   ("<", " < "), ("<=", " <= "), ("IN", " IN "), ("CONTAINS", " CONTAINS ")]

/-- Operator token per the specification: the table above, with the
equality fallback for any operator value outside it. -/
def operatorTokenSpec (op : String) : String :=
  match knownOperatorTokens.find? (fun kv => kv.1 == op) with
  | some kv => kv.2
  | none => " = "

/-- Where rendering per the specification: the four groups in the fixed
order Filter, Must, Should, MustNot, rendered as conditions joined by
"AND" unwrapped, "AND" in parentheses, "OR" in parentheses, and "AND" in
parentheses prefixed with "NOT"; non-empty group strings joined by
"AND" and prefixed with "WHERE "; nothing when all groups are empty. -/
def whereClauseSpec (w : Where) (params : Params) : String × Params :=
  let r1 := renderConds w.filter params
  let r2 := renderConds w.must r1.2
  let r3 := renderConds w.should r2.2
  let r4 := renderConds w.mustNot r3.2
  let pieces :=
    (if w.filter.isEmpty then [] else [sjoin r1.1 " AND "]) ++
    (if w.must.isEmpty then [] else ["(" ++ sjoin r2.1 " AND " ++ ")"]) ++
    (if w.should.isEmpty then [] else ["(" ++ sjoin r3.1 " OR " ++ ")"]) ++
    (if w.mustNot.isEmpty then [] else ["NOT (" ++ sjoin r4.1 " AND " ++ ")"])
  if pieces.isEmpty then ("", r4.2)
  else ("WHERE " ++ sjoin pieces " AND ", r4.2)

/-- Direction-dependent brackets per the specification: incoming, both,
and outgoing together with any unknown direction value. -/
def bracketsSpec (d : String) : String × String :=
  if d = "<-" then ("<-[", "]-")
  else if d = "--" then ("-[", "]-")
  else ("-[", "]->")

/-- Hop-range suffix per the specification: `*N` when both bounds are
set and equal, `*min..max` when both set and different, `*min..` when
only the minimum is set, `*..max` when only the maximum is set, absent
when neither is set. -/
def hopTextSpec (mn mx : Option Int) : String :=
  match mn, mx with
  | some a, some b =>
    if a = b then "*" ++ toString a else "*" ++ toString a ++ ".." ++ toString b
  | some a, none => "*" ++ toString a ++ ".."
  | none, some b => "*.." ++ toString b
  | none, none => ""

/-- Edge segment per the specification: direction-dependent brackets,
edge alias defaulting to "r", labels joined with "|" after a single ":",
the hop-range suffix, then the inline edge properties and the far
endpoint as rendered by the source. -/
def edgeSegmentSpec (e : EdgePattern) (params : Params) : String × Params :=
  let ea := if e.aliasName = "" then "r" else e.aliasName
  let lbl := if e.labels.isEmpty then "" else ":" ++ sjoin e.labels "|"
  let pr := bindProps ea e.properties params
  ((bracketsSpec e.direction).1 ++ ea ++ lbl ++ hopTextSpec e.minHops e.maxHops
      ++ pr.1 ++ (bracketsSpec e.direction).2
      ++ (match e.node with
          | some n => farNodeText n
          | none => ""),
   pr.2)

/-- Return tail clause per the specification: each item projected as
`expr AS alias` (alias part only when set), every introduced alias when
no item is given, then ORDER BY entries, then SKIP and LIMIT bound under
the fixed parameter names skip and limit. -/
def returnClauseSpec (q : Query) (aliasesInMatch : List String) : String × Params :=
  let projected :=
    if q.ret.isEmpty then aliasesInMatch
    else q.ret.map (fun r =>
      r.expression ++ (if r.aliasName = "" then "" else " AS " ++ r.aliasName))
  let orderPieces := q.orderBy.map (fun o =>
    o.aliasName ++ "." ++ o.property ++ (if o.asc then " ASC" else " DESC"))
  ("RETURN " ++ sjoin projected ", "
     ++ (if q.orderBy.isEmpty then "" else " ORDER BY " ++ sjoin orderPieces ", ")
     ++ (match q.skip with | some _ => " SKIP $skip" | none => "")
     ++ (match q.limit with | some _ => " LIMIT $limit" | none => ""),
   (match q.skip with | some s => [("skip", Val.int s)] | none => []) ++
   (match q.limit with | some l => [("limit", Val.int l)] | none => []))

/-- Introduced-alias list per the specification: concatenated over the
patterns in declaration order, the node alias (default "n"), then the
edge alias (default "r") when an edge is present, then the far-node
alias (default "m") when that edge has a far endpoint. -/
def aliasListSpec (pats : List Pattern) : List String :=
  (pats.map (fun p =>
    [if p.aliasName = "" then "n" else p.aliasName] ++
    (match p.edge with
     | none => []
     | some e =>
       [if e.aliasName = "" then "r" else e.aliasName] ++
       (match e.node with
        | none => []
        | some fn => [if fn.aliasName = "" then "m" else fn.aliasName])))).flatten

/-- The MATCH/WHERE prefix shared by every compiled query: the part of
`buildCypherQueryForOperation` before the operation clause. -/
def headText (q : Query) : String :=
  let m := buildMatchClause q.matchP []
  let w := buildWhereClause q.whereP m.2
  (if m.1 ≠ "" then m.1 ++ " " else "") ++ (if w.1 ≠ "" then w.1 ++ " " else "")

/-- The parameter map accumulated by the MATCH/WHERE prefix. -/
def headParams (q : Query) : Params :=
  (buildWhereClause q.whereP (buildMatchClause q.matchP []).2).2


/-! ### Freshness of the collision loop in `buildCondition` -/

theorem charDigit_digitChar (d : Nat) (h : d < 10) : charDigit (Nat.digitChar d) = d := by
  interval_cases d <;> rfl

theorem toDigitsCore_foldl (fl : Nat) :
    ∀ (n : Nat) (cs : List Char),
      n < 10 ^ fl →
      List.foldl (fun a c => a * 10 + charDigit c) 0 (Nat.toDigitsCore 10 fl n cs)
        = List.foldl (fun a c => a * 10 + charDigit c) n cs := by
  induction fl with
  | zero =>
    intro n cs h
    have : n = 0 := by simpa using h
    subst this
    rfl
  | succ f ih =>
    intro n cs h
    have hmlt : n % 10 < 10 := Nat.mod_lt _ (by norm_num)
    by_cases h0 : n / 10 = 0
    · have hn : n < 10 := by omega
      have hstep : Nat.toDigitsCore 10 (f + 1) n cs = Nat.digitChar (n % 10) :: cs := by
        simp [Nat.toDigitsCore, h0]
      rw [hstep, List.foldl_cons]
      congr 1
      simp [Nat.mod_eq_of_lt hn, charDigit_digitChar n hn]
    · have hrec : Nat.toDigitsCore 10 (f + 1) n cs
          = Nat.toDigitsCore 10 f (n / 10) (Nat.digitChar (n % 10) :: cs) := by
        simp [Nat.toDigitsCore, h0]
      have hdiv : n / 10 < 10 ^ f := by
        rw [Nat.pow_succ] at h
        omega
      rw [hrec, ih (n / 10) (Nat.digitChar (n % 10) :: cs) hdiv, List.foldl_cons]
      congr 1
      simp [charDigit_digitChar (n % 10) hmlt]
      omega

theorem decValue_toDigits (n : Nat) : decValue (Nat.toDigits 10 n) = n := by
  have hlt : n < 10 ^ (n + 1) := by
    calc n < 10 ^ n := Nat.lt_pow_self (by norm_num) n
    _ ≤ 10 ^ (n + 1) := Nat.pow_le_pow_right (by norm_num) (Nat.le_succ n)
  simpa [decValue, Nat.toDigits] using toDigitsCore_foldl (n + 1) n [] hlt

theorem natRepr_injective : Function.Injective Nat.repr := by
  intro m n h
  have hd : Nat.toDigits 10 m = Nat.toDigits 10 n := by
    have h2 := congrArg String.data h
    simpa [Nat.repr, List.asString] using h2
  have h3 := congrArg decValue hd
  simpa [decValue_toDigits] using h3

theorem candidateName_injective (base : String) :
    Function.Injective (candidateName base) := by
  intro j k h
  unfold candidateName at h
  by_cases hj : j = 0 <;> by_cases hk : k = 0
  · omega
  · exfalso
    rw [if_pos hj, if_neg hk] at h
    have := congrArg String.length h
    simp [String.length_append] at this
    have hu : ("_" : String).length = 1 := rfl
    omega
  · exfalso
    rw [if_neg hj, if_pos hk] at h
    have := congrArg String.length h
    simp [String.length_append] at this
    have hu : ("_" : String).length = 1 := rfl
    omega
  · rw [if_neg hj, if_neg hk] at h
    have hdata := congrArg String.data h
    simp only [String.data_append] at hdata
    have hre : (Nat.repr j).data = (Nat.repr k).data :=
      List.append_cancel_left hdata
    have : Nat.repr j = Nat.repr k := by
      cases hj' : Nat.repr j
      cases hk' : Nat.repr k
      simp_all
    exact natRepr_injective this

theorem hasKey_iff (m : Params) (k : String) :
    hasKey m k = true ↔ k ∈ m.map Prod.fst := by
  simp [hasKey, List.any_eq_true, List.mem_map]

theorem exists_candidate_free (base : String) (params : Params) :
    ∃ j, j < params.length + 1 ∧ hasKey params (candidateName base j) = false := by
  by_contra hcon
  push_neg at hcon
  have hall : ∀ j ∈ Finset.range (params.length + 1),
      candidateName base j ∈ (params.map Prod.fst).toFinset := by
    intro j hj
    have h1 := hcon j (Finset.mem_range.mp hj)
    have h2 : hasKey params (candidateName base j) = true := by
      cases h : hasKey params (candidateName base j)
      · exact absurd h h1
      · rfl
    rw [List.mem_toFinset]
    exact (hasKey_iff params _).mp h2
  have hcard : (params.map Prod.fst).toFinset.card < (Finset.range (params.length + 1)).card := by
    have h1 : (params.map Prod.fst).toFinset.card ≤ (params.map Prod.fst).length :=
      List.toFinset_card_le _
    simp only [List.length_map, Finset.card_range] at *
    omega
  obtain ⟨x, hx, y, hy, hxy, heq⟩ :=
    Finset.exists_ne_map_eq_of_card_lt_of_maps_to hcard hall
  exact hxy (candidateName_injective base heq)

theorem findFreshAux_found (base : String) (params : Params) :
    ∀ (fuel k : Nat),
      (∃ j, k ≤ j ∧ j < k + fuel ∧ hasKey params (candidateName base j) = false) →
      ∃ j, k ≤ j ∧ hasKey params (candidateName base j) = false ∧
        (∀ i, k ≤ i → i < j → hasKey params (candidateName base i) = true) ∧
        findFreshAux base params fuel k = candidateName base j := by
  intro fuel
  induction fuel with
  | zero =>
    rintro k ⟨j, hkj, hlt, _⟩
    omega
  | succ f ih =>
    rintro k ⟨j, hkj, hlt, hfree⟩
    by_cases hk : hasKey params (candidateName base k) = true
    · have hjk : j ≠ k := by
        intro e
        rw [e, hk] at hfree
        exact Bool.noConfusion hfree
      obtain ⟨j', h1, h2, h3, h4⟩ :=
        ih (k + 1) ⟨j, by omega, by omega, hfree⟩
      refine ⟨j', by omega, h2, ?_, ?_⟩
      · intro i hki hij
        rcases Nat.lt_or_ge i (k + 1) with hlow | hhigh
        · have : i = k := by omega
          rw [this]
          exact hk
        · exact h3 i hhigh hij
      · rw [findFreshAux, hk]
        exact h4
    · have hkf : hasKey params (candidateName base k) = false := by
        cases h : hasKey params (candidateName base k)
        · rfl
        · exact absurd h hk
      refine ⟨k, Nat.le_refl _, hkf, ?_, ?_⟩
      · intro i h1 h2
        omega
      · rw [findFreshAux, hkf]
        simp

theorem freshParamName_spec (base : String) (params : Params) :
    ∃ j, hasKey params (candidateName base j) = false ∧
      (∀ i, i < j → hasKey params (candidateName base i) = true) ∧
      freshParamName base params = candidateName base j := by
  obtain ⟨j, hj1, hj2⟩ := exists_candidate_free base params
  obtain ⟨j', _, hfree, hleast, heq⟩ :=
    findFreshAux_found base params (params.length + 1) 0 ⟨j, Nat.zero_le _, by omega, hj2⟩
  exact ⟨j', hfree, fun i hi => hleast i (Nat.zero_le _) hi, heq⟩

theorem freshParamName_not_key (base : String) (params : Params) :
    hasKey params (freshParamName base params) = false := by
  obtain ⟨j, hfree, _, heq⟩ := freshParamName_spec base params
  rw [heq]
  exact hfree

theorem mapInsert_of_not_key (m : Params) (k : String) (v : Val)
    (h : hasKey m k = false) : mapInsert m k v = m ++ [(k, v)] := by
  simp [mapInsert, h]

/-- The orchestrator text is the MATCH/WHERE prefix followed by the
operation clause, and its parameters are the prefix parameters merged
with the operation parameters (later writers win). -/
theorem buildCypherQueryForOperation_eq (q : Query) (g : List String → String × Params) :
    buildCypherQueryForOperation q g
      = (headText q ++ (g (collectAliases q.matchP)).1,
         mergeParams (headParams q) (g (collectAliases q.matchP)).2) := rfl

/-- C6: for every Query with a non-empty introduced-alias list, deleting
nodes emits exactly `DETACH DELETE` on the first introduced alias (never
a plain `DELETE` for a node target), and deleting edges emits `DELETE`
on the targeted edge alias. -/
theorem delete_clause_targets (q : Query) (a : String) (rest : List String)
    (h : collectAliases q.matchP = a :: rest) :
    (deleteNodesCypher q).1
        = headText q ++ "DETACH DELETE " ++ a ++ " RETURN count(" ++ a ++ ")"
      ∧ (firstEdgeAlias q ≠ "" →
          (deleteEdgesCypher q).1
            = headText q ++ "DELETE " ++ firstEdgeAlias q
                ++ " RETURN count(" ++ firstEdgeAlias q ++ ")") := by
  constructor
  · simp [deleteNodesCypher, buildCypherQueryForOperation_eq, h, deleteNodesOp,
      countTail, String.append_assoc]
  · intro hne
    simp [deleteEdgesCypher, buildCypherQueryForOperation_eq, hne, edgeCountTail,
      String.append_assoc]

theorem delete_clause_targets_witness :
    (deleteNodesCypher
        ⟨[Pattern.mk "" "n" ["Person"] []
            (some (EdgePattern.mk "e" [] [] "->" none none
              (some (Pattern.mk "" "m" [] [] none))))], none, [], [], none, none⟩).1
      = "MATCH (n:`Person`)-[e]->(m) DETACH DELETE n RETURN count(n)"
    ∧ (deleteEdgesCypher
        ⟨[Pattern.mk "" "n" ["Person"] []
            (some (EdgePattern.mk "e" [] [] "->" none none
              (some (Pattern.mk "" "m" [] [] none))))], none, [], [], none, none⟩).1
      = "MATCH (n:`Person`)-[e]->(m) DELETE e RETURN count(e)" := by
  have h := delete_clause_targets
    ⟨[Pattern.mk "" "n" ["Person"] []
        (some (EdgePattern.mk "e" [] [] "->" none none
          (some (Pattern.mk "" "m" [] [] none))))], none, [], [], none, none⟩
    "n" ["e", "m"] rfl
  exact ⟨by rw [h.1]; rfl, by rw [h.2 (by decide)]; rfl⟩

/-- C9: with the Set strategy, an empty property map or an empty
introduced-alias list produces empty clause text, the compiled text is
just the MATCH/WHERE prefix followed by the count clause (no `SET`
keyword is emitted), and compilation is total. -/
theorem set_degenerate_no_op (q : Query) (a : String) (props : List (String × Val)) :
    buildSetClause a [] = ("", [])
      ∧ (collectAliases q.matchP = [] →
          (updateNodesCypher q props).1 = headText q ++ " RETURN count(*)")
      ∧ (updateNodesCypher q []).1 = headText q ++ countTail (collectAliases q.matchP) := by
  refine ⟨rfl, ?_, ?_⟩
  · intro h
    simp [updateNodesCypher, buildCypherQueryForOperation_eq, h, updateNodesSetOp, countTail]
  · cases hc : collectAliases q.matchP with
    | nil =>
      simp [updateNodesCypher, buildCypherQueryForOperation_eq, hc, updateNodesSetOp]
    | cons x xs =>
      simp [updateNodesCypher, buildCypherQueryForOperation_eq, hc, updateNodesSetOp,
        buildSetClause]

theorem set_degenerate_no_op_witness :
    buildSetClause "n" [] = ("", [])
      ∧ (updateNodesCypher ⟨[], none, [], [], none, none⟩
          [("age", Val.int 30)]).1
        = headText ⟨[], none, [], [], none, none⟩ ++ " RETURN count(*)"
      ∧ (updateNodesCypher ⟨[Pattern.mk "" "n" ["Person"] [] none], none, [], [], none, none⟩ []).1
        = headText ⟨[Pattern.mk "" "n" ["Person"] [] none], none, [], [], none, none⟩
            ++ countTail (collectAliases [Pattern.mk "" "n" ["Person"] [] none]) := by
  refine ⟨(set_degenerate_no_op ⟨[], none, [], [], none, none⟩ "n" []).1, ?_, ?_⟩
  · exact (set_degenerate_no_op ⟨[], none, [], [], none, none⟩ "n"
      [("age", Val.int 30)]).2.1 rfl
  · exact (set_degenerate_no_op
      ⟨[Pattern.mk "" "n" ["Person"] [] none], none, [], [], none, none⟩ "n" []).2.2

/-- C10: the edge-targeted bulk mutations take as target only the
explicitly supplied alias of the first pattern's edge; when the first
pattern has no edge or its edge alias is empty, the SET/DELETE clause is
empty and the count clause falls back to `RETURN count(*)`, so the
default edge alias "r" rendered in the match text is never a mutation
target. -/
theorem edge_mutation_explicit_target (q : Query) (props : List (String × Val)) :
    (firstEdgeAlias q = "" →
        (updateEdgesCypher q props).1 = headText q ++ " RETURN count(*)"
          ∧ (deleteEdgesCypher q).1 = headText q ++ " RETURN count(*)")
      ∧ (∀ p rest, q.matchP = p :: rest → p.edge = none → firstEdgeAlias q = "")
      ∧ (∀ p rest e, q.matchP = p :: rest → p.edge = some e → e.aliasName = "" →
          firstEdgeAlias q = "")
      ∧ (∀ p rest e, q.matchP = p :: rest → p.edge = some e → e.aliasName ≠ "" →
          (updateEdgesCypher q props).1
              = headText q ++ (buildSetClause e.aliasName props).1
                  ++ " RETURN count(" ++ e.aliasName ++ ")"
            ∧ (deleteEdgesCypher q).1
              = headText q ++ "DELETE " ++ e.aliasName
                  ++ " RETURN count(" ++ e.aliasName ++ ")") := by
  refine ⟨?_, ?_, ?_, ?_⟩
  · intro h
    constructor
    · simp [updateEdgesCypher, buildCypherQueryForOperation_eq, h, edgeCountTail]
    · simp [deleteEdgesCypher, buildCypherQueryForOperation_eq, h, edgeCountTail]
  · intro p rest hm he
    simp [firstEdgeAlias, hm, he]
  · intro p rest e hm he ha
    simp [firstEdgeAlias, hm, he, ha]
  · intro p rest e hm he ha
    have hfe : firstEdgeAlias q = e.aliasName := by
      simp [firstEdgeAlias, hm, he, ha]
    constructor
    · simp [updateEdgesCypher, buildCypherQueryForOperation_eq, hfe, ha, edgeCountTail,
        String.append_assoc]
    · simp [deleteEdgesCypher, buildCypherQueryForOperation_eq, hfe, ha, edgeCountTail,
        String.append_assoc]

theorem edge_mutation_explicit_target_witness :
    ((updateEdgesCypher ⟨[Pattern.mk "" "n" [] [] none], none, [], [], none, none⟩
          [("w", Val.int 1)]).1
        = headText ⟨[Pattern.mk "" "n" [] [] none], none, [], [], none, none⟩
            ++ " RETURN count(*)")
      ∧ firstEdgeAlias ⟨[Pattern.mk "" "n" [] []
            (some (EdgePattern.mk "" [] [] "->" none none none))], none, [], [], none, none⟩ = ""
      ∧ (deleteEdgesCypher ⟨[Pattern.mk "" "n" [] []
            (some (EdgePattern.mk "e" [] [] "->" none none none))], none, [], [], none, none⟩).1
        = headText ⟨[Pattern.mk "" "n" [] []
            (some (EdgePattern.mk "e" [] [] "->" none none none))], none, [], [], none, none⟩
            ++ "DELETE " ++ "e" ++ " RETURN count(" ++ "e" ++ ")" := by
  refine ⟨?_, ?_, ?_⟩
  · exact ((edge_mutation_explicit_target
      ⟨[Pattern.mk "" "n" [] [] none], none, [], [], none, none⟩
      [("w", Val.int 1)]).1 rfl).1
  · exact (edge_mutation_explicit_target
      ⟨[Pattern.mk "" "n" [] []
          (some (EdgePattern.mk "" [] [] "->" none none none))], none, [], [], none, none⟩
      []).2.2.1 (Pattern.mk "" "n" [] []
          (some (EdgePattern.mk "" [] [] "->" none none none))) [] 
      (EdgePattern.mk "" [] [] "->" none none none) rfl rfl rfl
  · exact ((edge_mutation_explicit_target
      ⟨[Pattern.mk "" "n" [] []
          (some (EdgePattern.mk "e" [] [] "->" none none none))], none, [], [], none, none⟩
      []).2.2.2 (Pattern.mk "" "n" [] []
          (some (EdgePattern.mk "e" [] [] "->" none none none))) []
      (EdgePattern.mk "e" [] [] "->" none none none) rfl rfl (by decide)).2

/-- A left fold that appends a per-element segment to its accumulator
flattens to the concatenation of the segments. -/
theorem foldl_append_seg {α β : Type} (f : β → List α) (ps : List β)
    (acc : List α) (body : List α → β → List α)
    (hbody : ∀ a p, body a p = a ++ f p) :
    ps.foldl body acc = acc ++ (ps.map f).flatten := by
  induction ps generalizing acc with
  | nil => simp
  | cons p ps ih =>
    rw [List.foldl_cons, hbody, ih, List.map_cons, List.flatten_cons, List.append_assoc]

/-- The alias-collection loop agrees with the flattened per-pattern
segments. -/
theorem collectAliases_eq_spec (pats : List Pattern) :
    collectAliases pats = aliasListSpec pats := by
  unfold collectAliases aliasListSpec
  rw [foldl_append_seg (f := fun p =>
    [if p.aliasName = "" then "n" else p.aliasName] ++
    (match p.edge with
     | none => []
     | some e =>
       [if e.aliasName = "" then "r" else e.aliasName] ++
       (match e.node with
        | none => []
        | some fn => [if fn.aliasName = "" then "m" else fn.aliasName])))]
  · simp
  · intro a p
    cases hp : p.edge with
    | none => simp [hp]
    | some e =>
      cases hn : e.node with
      | none => simp [hp, hn]
      | some fn => simp [hp, hn]

/-- C8: the alias list handed to the operation-clause strategy is,
concatenated over the Match patterns in declaration order, the node
alias (default "n"), then the edge alias (default "r") when an edge is
present, then the far-node alias (default "m") when that edge has a far
endpoint — the same list on every call with the same input. -/
theorem introduced_alias_list (q : Query) (g : List String → String × Params) :
    collectAliases q.matchP = aliasListSpec q.matchP
      ∧ buildCypherQueryForOperation q g
          = (headText q ++ (g (aliasListSpec q.matchP)).1,
             mergeParams (headParams q) (g (aliasListSpec q.matchP)).2) := by
  have h := collectAliases_eq_spec q.matchP
  exact ⟨h, by rw [buildCypherQueryForOperation_eq, h]⟩

/-- The if-chain of `buildCondition` agrees with the specification's
fixed operator table with its equality fallback. -/
theorem operatorToken_eq_spec (op : String) : operatorToken op = operatorTokenSpec op := by
  unfold operatorToken operatorTokenSpec knownOperatorTokens OpEqual OpNotEqual
    OpGreaterThan OpGreaterThanOrEqual OpLessThan OpLessThanOrEqual OpIn OpContains
  split_ifs with h1 h2 h3 h4 h5 h6 h7 h8
  · simp_all [List.find?, eq_comm]
  · simp_all [List.find?, eq_comm]
  · simp_all [List.find?, eq_comm]
  · simp_all [List.find?, eq_comm]
  · simp_all [List.find?, eq_comm]
  · simp_all [List.find?, eq_comm]
  · simp_all [List.find?, eq_comm]
  · simp_all [List.find?, eq_comm]
  · have cv : ∀ (a : String), ¬ op = a → (a == op) = false := fun a h =>
      beq_eq_false_iff_ne.mpr (fun e => h e.symm)
    simp [List.find?, cv _ h1, cv _ h2, cv _ h3, cv _ h4, cv _ h5, cv _ h6,
      cv _ h7, cv _ h8]

/-- C7: condition rendering emits `alias.property <token> $name` where
the parameter name is collision-resolved from base `Alias_Property`, the
operator token comes from the fixed total table, and any operator value
outside the table falls back to equality; rendering always succeeds. -/
theorem condition_rendering (cond : Condition) (params : Params) :
    buildCondition cond params
      = (cond.aliasName ++ "." ++ cond.property ++ operatorTokenSpec cond.operator ++ "$"
           ++ freshParamName (cond.aliasName ++ "_" ++ cond.property) params,
         mapInsert params (freshParamName (cond.aliasName ++ "_" ++ cond.property) params)
           cond.value) := by
  unfold buildCondition
  rw [operatorToken_eq_spec]

/-- C4: the edge segment uses direction-dependent brackets (outgoing and
unknown values: `-[ ]->`, incoming: `<-[ ]-`, both: `-[ ]-`), an edge
alias defaulting to "r", labels joined with `|` after a single `:`, and
the four-way hop-range suffix, omitted when neither bound is set. -/
theorem edge_segment_rendering (e : EdgePattern) (params : Params) :
    buildEdgeSegment e params = edgeSegmentSpec e params := by
  rcases e with ⟨ea, ls, props, d, mn, mx, nd⟩
  have l5 : ∀ s : String, "*" ++ (".." ++ s) = "*.." ++ s := by
    intro s
    rw [← String.append_assoc]
    rfl
  unfold buildEdgeSegment edgeSegmentSpec bracketsSpec dirOpen dirClose hopText hopTextSpec
    DirectionIncoming DirectionBoth
  simp only [EdgePattern.aliasName, EdgePattern.labels, EdgePattern.properties,
    EdgePattern.direction, EdgePattern.minHops, EdgePattern.maxHops, EdgePattern.node]
  by_cases hd1 : d = "<-" <;> by_cases hd2 : d = "--" <;>
    rcases mn with _ | a <;> rcases mx with _ | b <;>
      by_cases hls : ls = [] <;>
        simp_all [String.append_assoc, List.length_pos, l5] <;>
          first
            | rfl
            | (split_ifs <;> simp_all [String.append_assoc])

/-- C5: the Return strategy projects each item as `expr AS alias` (alias
part only when set), defaults to every introduced alias when no item is
given, then appends ORDER BY entries in order, then SKIP and LIMIT bound
under the fixed parameter names skip and limit. -/
theorem return_clause_rendering (q : Query) (al : List String) :
    returnOpClause q al = returnClauseSpec q al := by
  unfold returnOpClause returnClauseSpec
  rcases hs : q.skip with _ | s <;> rcases hl : q.limit with _ | l <;>
    by_cases hr : q.ret = [] <;> by_cases ho : q.orderBy = [] <;>
      simp_all [mapInsert, hasKey, List.length_pos, List.length_eq_zero,
        String.append_assoc, ite_not]

theorem return_clause_scenario :
    returnOpClause
        ⟨[Pattern.mk "" "n" ["Person"] [] none], none, [ReturnItem.mk "n" ""],
          [Order.mk "n" "age" false, Order.mk "n" "name" true], some 10, some 5⟩ ["n"]
      = ("RETURN n ORDER BY n.age DESC, n.name ASC SKIP $skip LIMIT $limit",
         [("skip", Val.int 10), ("limit", Val.int 5)]) := by
  rw [return_clause_rendering]
  rfl

/-- The source's Where renderer agrees with the specification's
rendering for a present Where value. -/
theorem buildWhereClause_eq_spec (w : Where) (params : Params) :
    buildWhereClause (some w) params = whereClauseSpec w params := by
  unfold buildWhereClause whereClauseSpec
  by_cases hf : w.filter = [] <;> by_cases hm : w.must = [] <;>
    by_cases hsh : w.should = [] <;> by_cases hmn : w.mustNot = [] <;>
      simp_all [renderConds, List.length_pos, sjoin]

/-- C3: each non-empty group is rendered in the fixed order Filter,
Must, Should, MustNot with the group joiners and wrappers of the
specification, the group strings are joined by "AND" under a single
"WHERE "; when Where is absent or all four groups are empty nothing is
emitted, and the compiled text is the match segment directly followed by
the operation clause. -/
theorem where_rendering (w : Where) (params : Params) (q : Query)
    (g : List String → String × Params) :
    buildWhereClause (some w) params = whereClauseSpec w params
      ∧ buildWhereClause none params = ("", params)
      ∧ (w.filter = [] → w.must = [] → w.should = [] → w.mustNot = [] →
          buildWhereClause (some w) params = ("", params))
      ∧ ((q.whereP = none ∨
            (∃ w2, q.whereP = some w2 ∧ w2.filter = [] ∧ w2.must = [] ∧
              w2.should = [] ∧ w2.mustNot = [])) →
          (buildCypherQueryForOperation q g).1
            = (if (buildMatchClause q.matchP []).1 ≠ ""
               then (buildMatchClause q.matchP []).1 ++ " " else "")
                ++ (g (collectAliases q.matchP)).1) := by
  refine ⟨buildWhereClause_eq_spec w params, rfl, ?_, ?_⟩
  · intro h1 h2 h3 h4
    simp [buildWhereClause, h1, h2, h3, h4]
  · intro h
    rcases h with hnone | ⟨w2, hw2, h1, h2, h3, h4⟩
    · simp [buildCypherQueryForOperation, hnone, buildWhereClause]
    · simp [buildCypherQueryForOperation, hw2, buildWhereClause, h1, h2, h3, h4]

theorem where_rendering_witness :
    buildWhereClause (some (Where.mk [] [] [] [])) [] = ("", [])
      ∧ (buildCypherQueryForOperation
            ⟨[Pattern.mk "" "n" [] [] none], none, [], [], none, none⟩
            (fun _ => ("RETURN n", []))).1
        = "MATCH (n) RETURN n" := by
  have h := where_rendering (Where.mk [] [] [] []) []
    ⟨[Pattern.mk "" "n" [] [] none], none, [], [], none, none⟩
    (fun _ => ("RETURN n", []))
  refine ⟨h.2.2.1 rfl rfl rfl rfl, ?_⟩
  rw [h.2.2.2 (Or.inl rfl)]
  rfl

/-- C1 counterexample: in one compile call, two patterns with distinct
aliases `a` and `a_b` bind their inline properties under the same
parameter name `a_b_c`; the second binding overwrites the first in the
shared map (the rendered text references `$a_b_c` from both property
blocks while only the second value survives). -/
theorem inline_binding_overwrites :
    (buildCypherQuery
        ⟨[Pattern.mk "" "a" [] [("b_c", Val.int 1)] none], none,
          [ReturnItem.mk "a" ""], [], none, none⟩).2
      = [("a_b_c", Val.int 1)]
    ∧ (buildCypherQuery
        ⟨[Pattern.mk "" "a" [] [("b_c", Val.int 1)] none,
          Pattern.mk "" "a_b" [] [("c", Val.int 2)] none], none,
          [ReturnItem.mk "a" ""], [], none, none⟩).2
      = [("a_b_c", Val.int 2)]
    ∧ (buildCypherQuery
        ⟨[Pattern.mk "" "a" [] [("b_c", Val.int 1)] none,
          Pattern.mk "" "a_b" [] [("c", Val.int 2)] none], none,
          [ReturnItem.mk "a" ""], [], none, none⟩).1
      = "MATCH (a \x7bb_c: $a_b_c\x7d), (a_b \x7bc: $a_b_c\x7d) RETURN a" := by
  exact ⟨rfl, rfl, rfl⟩

/-- C1 (amended): condition rendering never overwrites — the parameter
name chosen by `buildCondition` is the base `Alias_Property` when free,
otherwise the base with the smallest free numeric suffix, and the
binding strictly appends to the shared map; inline node/edge property
rendering, by contrast, binds `alias_key` without any collision check
(see the counterexample). -/
theorem condition_binding_never_overwrites (cond : Condition) (params : Params) :
    ∃ k, freshParamName (cond.aliasName ++ "_" ++ cond.property) params
          = candidateName (cond.aliasName ++ "_" ++ cond.property) k
      ∧ hasKey params (candidateName (cond.aliasName ++ "_" ++ cond.property) k) = false
      ∧ (∀ i, i < k →
          hasKey params (candidateName (cond.aliasName ++ "_" ++ cond.property) i) = true)
      ∧ (buildCondition cond params).2
          = params ++ [(freshParamName (cond.aliasName ++ "_" ++ cond.property) params,
              cond.value)] := by
  obtain ⟨k, hfree, hleast, heq⟩ :=
    freshParamName_spec (cond.aliasName ++ "_" ++ cond.property) params
  refine ⟨k, heq, hfree, hleast, ?_⟩
  have hnk : hasKey params (freshParamName (cond.aliasName ++ "_" ++ cond.property) params)
      = false := by
    rw [heq]
    exact hfree
  simp [buildCondition, mapInsert_of_not_key _ _ _ hnk]

/-- C2: a Go map's `range` order is unspecified, so one map value can be
iterated in different orders on different compile calls; on the repo's
own two-key test input the two iteration orders compile to different
query text, and for the Set strategy also to different parameter maps. -/
theorem property_map_order_changes_output :
    ([("name", Val.str "Alice"), ("age", Val.int 30)] : List (String × Val)).Perm
        [("age", Val.int 30), ("name", Val.str "Alice")]
      ∧ (buildCypherQuery
            ⟨[Pattern.mk "" "n" ["Person"]
                [("name", Val.str "Alice"), ("age", Val.int 30)] none], none,
              [ReturnItem.mk "n" ""], [], none, none⟩).1
          ≠ (buildCypherQuery
            ⟨[Pattern.mk "" "n" ["Person"]
                [("age", Val.int 30), ("name", Val.str "Alice")] none], none,
              [ReturnItem.mk "n" ""], [], none, none⟩).1
      ∧ ([("a", Val.int 1), ("b", Val.int 2)] : List (String × Val)).Perm
          [("b", Val.int 2), ("a", Val.int 1)]
      ∧ buildSetClause "n" [("a", Val.int 1), ("b", Val.int 2)]
          ≠ buildSetClause "n" [("b", Val.int 2), ("a", Val.int 1)] := by
  refine ⟨List.Perm.swap _ _ _, ?_, List.Perm.swap _ _ _, ?_⟩
  · decide
  · decide

theorem condition_binding_never_overwrites_witness :
    ∃ k, freshParamName "n_age" [("n_age", Val.int 1)] = candidateName "n_age" k
      ∧ hasKey [("n_age", Val.int 1)] (candidateName "n_age" k) = false
      ∧ (∀ i, i < k → hasKey [("n_age", Val.int 1)] (candidateName "n_age" i) = true)
      ∧ (buildCondition (Condition.mk "n" "age" ">" (Val.int 25))
            [("n_age", Val.int 1)]).2
          = [("n_age", Val.int 1)] ++ [(freshParamName "n_age" [("n_age", Val.int 1)],
              Val.int 25)] :=
  condition_binding_never_overwrites (Condition.mk "n" "age" ">" (Val.int 25))
    [("n_age", Val.int 1)]

-- The repository's own unit expectations, reproduced on the embedding.
example :
    buildCypherQuery
      ⟨[Pattern.mk "" "n" ["Person"] [] none], none, [ReturnItem.mk "n" ""], [], none, none⟩
      = ("MATCH (n:`Person`) RETURN n", []) := by rfl

example :
    buildCypherQuery
      ⟨[Pattern.mk "" "n" ["Person"] [] none], none, [ReturnItem.mk "n" ""],
        [Order.mk "n" "age" false, Order.mk "n" "name" true], some 10, some 5⟩
      = ("MATCH (n:`Person`) RETURN n ORDER BY n.age DESC, n.name ASC SKIP $skip LIMIT $limit",
         [("skip", Val.int 10), ("limit", Val.int 5)]) := by rfl

example :
    (buildCypherQuery
      ⟨[Pattern.mk "" "a" ["Person"]
          [] (some (EdgePattern.mk "" ["KNOWS"] [] "->" (some 2) (some 5)
                (some (Pattern.mk "" "b" [] [] none))))],
        none, [ReturnItem.mk "a" "", ReturnItem.mk "b" ""], [], none, none⟩).1
      = "MATCH (a:`Person`)-[r:KNOWS*2..5]->(b) RETURN a, b" := by rfl

example :
    buildCypherQuery
      ⟨[Pattern.mk "" "n" ["Person"] [("name", Val.str "Alice"), ("age", Val.int 30)] none],
        none, [ReturnItem.mk "n" ""], [], none, none⟩
      = ("MATCH (n:`Person` \x7bname: $n_name, age: $n_age\x7d) RETURN n",
         [("n_name", Val.str "Alice"), ("n_age", Val.int 30)]) := by rfl

example :
    (buildCondition (Condition.mk "n" "age" ">" (Val.int 25)) []).1 = "n.age > $n_age" := by rfl

example :
    (buildCondition (Condition.mk "n" "age" "unknown-op" (Val.int 25)) []).1
      = "n.age = $n_age" := by rfl

example :
    (buildCondition (Condition.mk "n" "age" "=" (Val.int 30))
        ((buildCondition (Condition.mk "n" "age" ">" (Val.int 25)) []).2)).1
      = "n.age = $n_age_1" := by rfl
